import Mathlib

/-!
Verification of `scripts/configure_rabbitmq.py`.

The script decodes a site-config JSON document, then (in `main`):
  1. extracts `vhost` via `cfg["vhost"]` (KeyError when absent),
  2. builds the fixed section list telemetry/events/performance/commands
     from `cfg.get(...)`,
  3. ensures the vhost, then every section's exchange, then the
     queues+bindings of every section (commands excluded), each step
     issuing idempotent HTTP calls through `req`, which in dry-run mode
     prints the intended call instead of performing it.

We embed the JSON data model, Python truthiness and attribute/key access
(`.get` raises AttributeError on non-dict receivers, `[...]` raises
KeyError/TypeError), the plan construction of `main`, and the executor
`req` (dry-run trace vs. live HTTP with fail-fast `raise_for_status`).
-/

/-- JSON values as decoded by `json.loads`: objects keep their key order. -/
inductive JVal where
  | str (s : String)
  | num (n : Int)
  | bool (b : Bool)
  | null
  | arr (xs : List JVal)
  | obj (fields : List (String × JVal))
deriving Repr

namespace JVal

/-- Python truthiness (`if not x`): None, "", 0, False, [], {} are falsy. -/
def truthy : JVal → Bool
  | .str s => !s.isEmpty
  | .num n => n != 0
  | .bool b => b
  | .null => false
  | .arr xs => !xs.isEmpty
  | .obj fs => !fs.isEmpty

/-- Truthiness of a `dict.get` result: Python `None` (absent key) is falsy. -/
def truthyOpt : Option JVal → Bool
  | none => false
  | some v => v.truthy

/-- First-match association lookup (JSON objects have unique keys; Python
dicts keep one value per key; we model them as ordered field lists). -/
def lookupField : List (String × JVal) → String → Option JVal
  | [], _ => none
  | (k, v) :: fs, key => if k = key then some v else lookupField fs key

/-- Total `dict.get`-style lookup: `none` when the receiver is not an
object or the key is absent. Used only where the script has already
established the receiver is a dict. -/
def jget : JVal → String → Option JVal
  | .obj fs, key => lookupField fs key
  | _, _ => none

/-- Python `x.get(key)`: returns the value (or None) on a dict, raises
`AttributeError` on any other receiver. -/
def pyGet : JVal → String → Except String (Option JVal)
  | .obj fs, key => .ok (lookupField fs key)
  | _, _ => .error "AttributeError: object has no attribute get"

/-- Python `x[key]` with a string key: KeyError on a dict missing the key,
TypeError on a non-dict receiver (modelling the common non-subscriptable
cases; the script only ever reaches this with the decoded JSON document). -/
def pyIndex : JVal → String → Except String JVal
  | .obj fs, key =>
    match lookupField fs key with
    | some v => .ok v
    | none => .error ("KeyError: " ++ key)
  | _, _ => .error "TypeError: value is not subscriptable by str"

end JVal

open JVal

/-- The resource operations the script performs, one per `req` call:
ensure-vhost, ensure-exchange, ensure-queue, ensure-binding. Payload
values are the raw JSON values the script would interpolate/serialize. -/
inductive Op where
  | ensureVhost (vhost : JVal)
  | ensureExchange (vhost ex : JVal)
  | ensureQueue (vhost q : JVal)
  | ensureBinding (vhost ex q rk : JVal)
deriving Repr

/-- The JSON values an operation references (vhost, exchange, queue,
routing-key fields, in order). -/
def Op.refs : Op → List JVal
  | .ensureVhost v => [v]
  | .ensureExchange v e => [v, e]
  | .ensureQueue v q => [v, q]
  | .ensureBinding v e q r => [v, e, q, r]

/-- Whether a JSON value is exactly the string `s`. -/
def JVal.isStrEq (v : JVal) (s : String) : Bool :=
  match v with
  | .str t => t == s
  | _ => false

/-- Whether an operation references the string `s` in any field. -/
def Op.mentions (op : Op) (s : String) : Bool :=
  op.refs.any fun v => v.isStrEq s

/-- The loop body of `queues_for_block` over a new-style `queues` array:
`q.get("name")` (AttributeError on non-dict entries), skip falsy names,
default routing key `"#"`. -/
def newStyleTuples (ex : JVal) : List JVal → Except String (List (JVal × JVal × JVal))
  | [] => .ok []
  | q :: rest => do
    let qn? ← q.pyGet "name"
    match qn? with
    | none => newStyleTuples ex rest
    | some qn =>
      if !qn.truthy then newStyleTuples ex rest
      else do
        let rk? ← q.pyGet "routing_key"
        let rest' ← newStyleTuples ex rest
        .ok ((ex, qn, rk?.getD (.str "#")) :: rest')

/-- The legacy fallback of `queues_for_block`: single `queue` +
`routing_key` (default `"#"`). `b` is a dict at every call site, so the
`pyGet`s cannot fail there. -/
def legacyTuples (b : JVal) (ex : JVal) : Except String (List (JVal × JVal × JVal)) := do
  let qn? ← b.pyGet "queue"
  match qn? with
  | none => .ok []
  | some qn =>
    if !qn.truthy then .ok []
    else do
      let rk? ← b.pyGet "routing_key"
      .ok [(ex, qn, rk?.getD (.str "#"))]

/-- `queues_for_block(name, block)`: empty for falsy blocks, blocks
without a truthy `exchange`, and the `commands` section; otherwise the
non-empty-list `queues` array takes precedence, else the legacy fields. -/
def queuesForBlock (name : String) (block : Option JVal) :
    Except String (List (JVal × JVal × JVal)) :=
  match block with
  | none => .ok []
  | some b =>
    if !b.truthy then .ok []
    else do
      let ex? ← b.pyGet "exchange"
      match ex? with
      | none => .ok []
      | some ex =>
        if !ex.truthy then .ok []
        else if name = "commands" then .ok []
        else do
          let queues? ← b.pyGet "queues"
          match queues? with
          | some (.arr qs) =>
            if !qs.isEmpty then newStyleTuples ex qs
            else legacyTuples b ex
          | _ => legacyTuples b ex

/-- `ensure_exchange(block)`: one ensure-exchange operation when the block
is truthy and declares a truthy `exchange`, nothing otherwise. -/
def ensureExchangeOps (vhost : JVal) (block : Option JVal) : Except String (List Op) :=
  match block with
  | none => .ok []
  | some b =>
    if !b.truthy then .ok []
    else do
      let ex? ← b.pyGet "exchange"
      match ex? with
      | none => .ok []
      | some ex =>
        if !ex.truthy then .ok []
        else .ok [Op.ensureExchange vhost ex]

/-- The two operations `ensure_queues_and_bindings` performs per resolved
tuple: ensure-queue immediately followed by ensure-binding. -/
def pairOps (vhost : JVal) (t : JVal × JVal × JVal) : List Op :=
  [Op.ensureQueue vhost t.2.1, Op.ensureBinding vhost t.1 t.2.1 t.2.2]

/-- `ensure_queues_and_bindings(name, block)` as an operation list. -/
def ensureQueuesAndBindingsOps (vhost : JVal) (name : String) (block : Option JVal) :
    Except String (List Op) := do
  let ts ← queuesForBlock name block
  .ok (ts.flatMap (pairOps vhost))

/-- The fixed channel order of the `sections` dict literal in `main`:
telemetry, events, performance, commands. -/
def channelNames : List String := ["telemetry", "events", "performance", "commands"]

/-- The fixed section list of `main`: telemetry, events, performance,
commands, each paired with `cfg.get(name)` (the document is a dict at the
single call site, established by the successful `cfg["vhost"]`). -/
def sectionsOf (cfg : JVal) : List (String × Option JVal) :=
  channelNames.map fun n => (n, cfg.jget n)

/-- Run one phase of `main`'s loops: concatenate each step's operations,
stopping with the raised exception (discarding nothing already done —
earlier steps' operations are kept, the failing step contributes none,
later steps never run). -/
def runPhase (f : α → Except String (List Op)) : List α → List Op × Option String
  | [] => ([], none)
  | x :: rest =>
    match f x with
    | .error e => ([], some e)
    | .ok ops =>
      let (ops', e?) := runPhase f rest
      (ops ++ ops', e?)

/-- `main`'s plan construction: the operations actually performed, in
order, paired with the exception (if any) that aborted the run. The
vhost extraction happens before any operation; each later phase runs only
if the previous one did not raise. -/
def mainRun (cfg : JVal) : List Op × Option String :=
  match cfg.pyIndex "vhost" with
  | .error e => ([], some e)
  | .ok vhost =>
    let secs := sectionsOf cfg
    match runPhase (fun s => ensureExchangeOps vhost s.2) secs with
    | (exOps, some e) => (Op.ensureVhost vhost :: exOps, some e)
    | (exOps, none) =>
      let (qOps, qErr) := runPhase (fun s => ensureQueuesAndBindingsOps vhost s.1 s.2) secs
      (Op.ensureVhost vhost :: exOps ++ qOps, qErr)

/-- JSON string escaping as in `json.dumps` for quote and backslash (the
control-character and non-ASCII escapes are elided; no value the script
serializes contains them). -/
def jsonEscape (s : String) : String :=
  s.foldr
    (fun c acc =>
      (if c = '"' then "\\\"" else if c = '\\' then "\\\\" else String.singleton c) ++ acc)
    ""

mutual
/-- `json.dumps` with its default separators `", "` and `": "`. -/
def jsonDumps : JVal → String
  | .str s => "\"" ++ jsonEscape s ++ "\""
  | .num n => toString n
  | .bool b => if b then "true" else "false"
  | .null => "null"
  | .arr xs => "[" ++ jsonDumpsList xs ++ "]"
  | .obj fs => "\x7b" ++ jsonDumpsFields fs ++ "\x7d"

def jsonDumpsList : List JVal → String
  | [] => ""
  | [x] => jsonDumps x
  | x :: y :: rest => jsonDumps x ++ ", " ++ jsonDumpsList (y :: rest)

def jsonDumpsFields : List (String × JVal) → String
  | [] => ""
  | [(k, v)] => "\"" ++ jsonEscape k ++ "\": " ++ jsonDumps v
  | (k, v) :: g :: rest =>
    "\"" ++ jsonEscape k ++ "\": " ++ jsonDumps v ++ ", " ++ jsonDumpsFields (g :: rest)
end

mutual
/-- Python `repr` of a JSON-decoded value (string quote escaping elided;
the script only interpolates strings in practice). -/
def pyRepr : JVal → String
  | .str s => "\x27" ++ s ++ "\x27"
  | .num n => toString n
  | .bool b => if b then "True" else "False"
  | .null => "None"
  | .arr xs => "[" ++ pyReprList xs ++ "]"
  | .obj fs => "\x7b" ++ pyReprFields fs ++ "\x7d"

def pyReprList : List JVal → String
  | [] => ""
  | [x] => pyRepr x
  | x :: y :: rest => pyRepr x ++ ", " ++ pyReprList (y :: rest)

def pyReprFields : List (String × JVal) → String
  | [] => ""
  | [(k, v)] => "\x27" ++ k ++ "\x27: " ++ pyRepr v
  | (k, v) :: g :: rest =>
    "\x27" ++ k ++ "\x27: " ++ pyRepr v ++ ", " ++ pyReprFields (g :: rest)
end

/-- Python `str()` as used by f-string interpolation: strings verbatim,
everything else as `repr`. -/
def pyStr : JVal → String
  | .str s => s
  | v => pyRepr v

/-- Python `s.rstrip("/")`: drop every trailing slash. -/
def rstripSlashes (s : String) : String :=
  String.mk ((s.data.reverse.dropWhile (fun c => c == '/')).reverse)

/-- `base = args.base_url.rstrip("/") + "/api"`. -/
def apiBase (baseUrl : String) : String := rstripSlashes baseUrl ++ "/api"

/-- One intended HTTP call: the `(method, url, json=...)` triple handed to
`req`. -/
structure HttpCall where
  method : String
  url : String
  body : Option JVal
deriving Repr

/-- The single HTTP call each operation issues, with the URLs built by the
script's f-strings and the JSON bodies it passes. -/
def opCall (base : String) : Op → HttpCall
  | .ensureVhost v => ⟨"PUT", base ++ "/vhosts/" ++ pyStr v, none⟩
  | .ensureExchange v ex =>
    ⟨"PUT", base ++ "/exchanges/" ++ pyStr v ++ "/" ++ pyStr ex,
     some (.obj [("type", .str "topic"), ("durable", .bool true)])⟩
  | .ensureQueue v q =>
    ⟨"PUT", base ++ "/queues/" ++ pyStr v ++ "/" ++ pyStr q,
     some (.obj [("durable", .bool true)])⟩
  | .ensureBinding v ex q rk =>
    ⟨"POST", base ++ "/bindings/" ++ pyStr v ++ "/e/" ++ pyStr ex ++ "/q/" ++ pyStr q,
     some (.obj [("routing_key", rk)])⟩

/-- The HTTP calls a run over `cfg` hands to `req`, in order (one per
performed operation; the plan prefix in `mainRun` is exactly the
operations whose `req` calls were reached). -/
def planCalls (baseUrl : String) (cfg : JVal) : List HttpCall :=
  (mainRun cfg).1.map (opCall (apiBase baseUrl))

/-- The dry-run trace line `req` prints for a call: method, URL, and the
`json.dumps` of the body when one is passed. -/
def renderReq (c : HttpCall) : String :=
  match c.body with
  | some p => "[DRY-RUN] " ++ c.method ++ " " ++ c.url ++ " json=" ++ jsonDumps p
  | none => "[DRY-RUN] " ++ c.method ++ " " ++ c.url

/-- Outcome of one `requests.request` + `raise_for_status`: success, or an
exception (non-2xx `HTTPError` or a transport error). -/
inductive ReqResult where
  | success
  | failure (detail : String)

/-- The executor `req`, folded over the call sequence. `env n` is the
outcome of the n-th network request actually made. Returns the dry-run
trace lines printed, the network calls performed, and the first failure
(paired with the failing call) that aborted the run. In dry-run mode the
branch prints and returns without touching the network; in live mode a
raised exception stops everything after it (fail-fast, no retry, no
rollback). -/
def execCalls (dryRun : Bool) (env : Nat → ReqResult) : Nat → List HttpCall →
    List String × List HttpCall × Option (HttpCall × String)
  | _, [] => ([], [], none)
  | k, c :: rest =>
    if dryRun then
      let (logs, net, err) := execCalls dryRun env k rest
      (renderReq c :: logs, net, err)
    else
      match env k with
      | .success =>
        let (logs, net, err) := execCalls dryRun env (k + 1) rest
        (logs, c :: net, err)
      | .failure d => ([], [c], some (c, d))

/-- Whether a JSON value is an array (`isinstance(x, list)`). -/
def JVal.isArr : JVal → Bool
  | .arr _ => true
  | _ => false

/-- Whether a JSON value is an object (a Python dict). -/
def JVal.isObj : JVal → Bool
  | .obj _ => true
  | _ => false

/-- Remove every field named `key` from an object's field list, to state
"as if the field were absent". -/
def eraseKey (fs : List (String × JVal)) (key : String) : List (String × JVal) :=
  fs.filter fun p => p.1 != key

/-- Whether an operation is the ensure-vhost operation. -/
def Op.isVhostOp : Op → Bool
  | .ensureVhost _ => true
  | _ => false

/-- The exchange a section block declares, if any: the block must be a
truthy dict with a truthy `exchange` field (the condition under which
`ensure_exchange` issues its call). -/
def declaredExchange (blk : Option JVal) : Option JVal :=
  match blk with
  | some (.obj fs) =>
    if (JVal.obj fs).truthy then
      match lookupField fs "exchange" with
      | some ex => if ex.truthy then some ex else none
      | none => none
    else none
  | _ => none

/-- The operations `ensure_exchange` performs when it does not raise
(empty when it would raise — used to state the shape of completed runs). -/
def exOpsOk (v : JVal) (blk : Option JVal) : List Op :=
  ((ensureExchangeOps v blk).toOption).getD []

/-- The tuples `queues_for_block` resolves when it does not raise. -/
def tuplesOk (name : String) (blk : Option JVal) : List (JVal × JVal × JVal) :=
  ((queuesForBlock name blk).toOption).getD []

/-- A section block on which the script cannot raise: absent, falsy, or a
dict whose `queues` array (when it is a non-empty list) holds only dicts. -/
def blockWF : Option JVal → Bool
  | none => true
  | some (.obj fs) =>
    match lookupField fs "queues" with
    | some (.arr qs) => qs.all fun q => q.isObj
    | _ => true
  | some v => !v.truthy

/-- A decoded config document on which the script cannot raise after the
`vhost` lookup: a dict whose four recognized channel entries are
well-formed blocks. -/
def cfgWF : JVal → Bool
  | .obj fs => channelNames.all fun n => blockWF (lookupField fs n)
  | _ => false

/-- The end-to-end example input of the specification. -/
def cfgC1 : JVal := .obj
  [("vhost", .str "kade"),
   ("telemetry", .obj
     [("exchange", .str "telemetry"),
      ("queues", .arr [.obj [("name", .str "hammerspace.to-aws"),
                             ("routing_key", .str "hammerspace.#")]])]),
   ("commands", .obj
     [("exchange", .str "commands"),
      ("queue", .str "hammerspace.from-aws"),
      ("routing_key", .str "hammerspace.#")])]

theorem lookupField_ne_nil {fs : List (String × JVal)} {k : String} {v : JVal}
    (h : lookupField fs k = some v) : (JVal.obj fs).truthy = true := by
  cases fs with
  | nil => simp [lookupField] at h
  | cons a l => simp [JVal.truthy]

/-- C2: a `commands` block that declares a non-empty exchange contributes
exactly one ensure-exchange operation and no queue or binding operations,
whatever else the block contains. -/
theorem commands_exchange_only (vhost : JVal) (fs : List (String × JVal)) (ex : JVal)
    (hex : lookupField fs "exchange" = some ex) (ht : ex.truthy = true) :
    ensureExchangeOps vhost (some (.obj fs)) = .ok [Op.ensureExchange vhost ex] ∧
    ensureQueuesAndBindingsOps vhost "commands" (some (.obj fs)) = .ok [] := by
  have hobj := lookupField_ne_nil hex
  constructor
  · simp [ensureExchangeOps, hobj, pyGet, hex, ht, bind, Except.bind]
  · simp [ensureQueuesAndBindingsOps, queuesForBlock, hobj, pyGet, hex, ht, bind, Except.bind]

theorem commands_exchange_only_witness :
    lookupField [("exchange", JVal.str "commands"),
      ("queues", JVal.arr [JVal.obj [("name", JVal.str "x"), ("routing_key", JVal.str "y")]])]
      "exchange" = some (JVal.str "commands") ∧
    (JVal.str "commands").truthy = true ∧
    ensureExchangeOps (JVal.str "kade")
      (some (.obj [("exchange", JVal.str "commands"),
        ("queues", JVal.arr [JVal.obj [("name", JVal.str "x"), ("routing_key", JVal.str "y")]])])) =
      .ok [Op.ensureExchange (JVal.str "kade") (JVal.str "commands")] ∧
    ensureQueuesAndBindingsOps (JVal.str "kade") "commands"
      (some (.obj [("exchange", JVal.str "commands"),
        ("queues", JVal.arr [JVal.obj [("name", JVal.str "x"), ("routing_key", JVal.str "y")]])])) =
      .ok [] := by
  refine ⟨rfl, rfl, ?_⟩
  exact commands_exchange_only (JVal.str "kade") _ (JVal.str "commands") rfl rfl

/-- C5: when a non-`commands` block carries a non-empty `queues` array,
the resolved tuples are computed from that array and the block's exchange
alone — the legacy `queue`/`routing_key` fields contribute nothing. -/
theorem queues_array_precedence (name : String) (fs : List (String × JVal)) (ex : JVal)
    (qs : List JVal)
    (hname : name ≠ "commands")
    (hex : lookupField fs "exchange" = some ex) (ht : ex.truthy = true)
    (hqs : lookupField fs "queues" = some (.arr qs)) (hne : qs.isEmpty = false) :
    queuesForBlock name (some (.obj fs)) = newStyleTuples ex qs := by
  have hobj := lookupField_ne_nil hex
  simp [queuesForBlock, hobj, pyGet, hex, ht, hname, hqs, hne, bind, Except.bind]

theorem queues_array_precedence_witness :
    queuesForBlock "telemetry"
      (some (.obj [("exchange", JVal.str "tel"),
        ("queues", JVal.arr [JVal.obj [("name", JVal.str "n1"), ("routing_key", JVal.str "r1")]]),
        ("queue", JVal.str "legacy-q"), ("routing_key", JVal.str "legacy-rk")])) =
      newStyleTuples (JVal.str "tel")
        [JVal.obj [("name", JVal.str "n1"), ("routing_key", JVal.str "r1")]] := by
  exact queues_array_precedence "telemetry" _ (JVal.str "tel") _
    (by decide) rfl rfl rfl rfl

/-- C6: a non-`commands` block whose `queues` field is the empty array
falls through to the legacy `queue`/`routing_key` fields, producing one
tuple and hence one ensure-queue / ensure-binding pair. -/
theorem empty_queues_array_fallback (vhost : JVal) (name : String)
    (fs : List (String × JVal)) (ex q rk : JVal)
    (hname : name ≠ "commands")
    (hex : lookupField fs "exchange" = some ex) (htx : ex.truthy = true)
    (hqs : lookupField fs "queues" = some (.arr []))
    (hq : lookupField fs "queue" = some q) (htq : q.truthy = true)
    (hrk : lookupField fs "routing_key" = some rk) :
    queuesForBlock name (some (.obj fs)) = .ok [(ex, q, rk)] ∧
    ensureQueuesAndBindingsOps vhost name (some (.obj fs)) =
      .ok [Op.ensureQueue vhost q, Op.ensureBinding vhost ex q rk] := by
  have hobj := lookupField_ne_nil hex
  have h1 : queuesForBlock name (some (.obj fs)) = .ok [(ex, q, rk)] := by
    simp [queuesForBlock, hobj, pyGet, hex, htx, hname, hqs, legacyTuples, hq, htq, hrk,
      bind, Except.bind]
  refine ⟨h1, ?_⟩
  simp [ensureQueuesAndBindingsOps, h1, bind, Except.bind, pairOps]

theorem empty_queues_array_fallback_witness :
    queuesForBlock "telemetry"
      (some (.obj [("exchange", JVal.str "tel"), ("queues", JVal.arr []),
        ("queue", JVal.str "q1"), ("routing_key", JVal.str "rk1")])) =
      .ok [(JVal.str "tel", JVal.str "q1", JVal.str "rk1")] ∧
    ensureQueuesAndBindingsOps (JVal.str "v") "telemetry"
      (some (.obj [("exchange", JVal.str "tel"), ("queues", JVal.arr []),
        ("queue", JVal.str "q1"), ("routing_key", JVal.str "rk1")])) =
      .ok [Op.ensureQueue (JVal.str "v") (JVal.str "q1"),
           Op.ensureBinding (JVal.str "v") (JVal.str "tel") (JVal.str "q1") (JVal.str "rk1")] := by
  exact empty_queues_array_fallback (JVal.str "v") "telemetry" _
    (JVal.str "tel") (JVal.str "q1") (JVal.str "rk1")
    (by decide) rfl rfl rfl rfl rfl rfl

/-- C9: a block whose `exchange` field is absent or the empty string
contributes no operation at all — no exchange, no queue, no binding —
and raises no error, whatever other fields it carries. -/
theorem skip_on_missing_exchange (vhost : JVal) (name : String) (fs : List (String × JVal))
    (hex : lookupField fs "exchange" = none ∨ lookupField fs "exchange" = some (.str "")) :
    ensureExchangeOps vhost (some (.obj fs)) = .ok [] ∧
    ensureQueuesAndBindingsOps vhost name (some (.obj fs)) = .ok [] := by
  have hstr : ("" : String).isEmpty = true := rfl
  by_cases hobj : (JVal.obj fs).truthy = true
  · rcases hex with hex | hex <;>
      exact ⟨by simp [ensureExchangeOps, hobj, pyGet, hex, hstr, JVal.truthy, bind, Except.bind],
             by simp [ensureQueuesAndBindingsOps, queuesForBlock, hobj, pyGet, hex, hstr,
               JVal.truthy, bind, Except.bind]⟩
  · rw [Bool.not_eq_true] at hobj
    exact ⟨by simp [ensureExchangeOps, hobj],
           by simp [ensureQueuesAndBindingsOps, queuesForBlock, hobj, bind, Except.bind]⟩

theorem skip_on_missing_exchange_witness :
    ensureExchangeOps (JVal.str "v") (some (.obj
      [("queues", JVal.arr [JVal.obj [("name", JVal.str "n1")]]),
       ("queue", JVal.str "q1"), ("routing_key", JVal.str "rk1")])) = .ok [] ∧
    ensureQueuesAndBindingsOps (JVal.str "v") "telemetry" (some (.obj
      [("queues", JVal.arr [JVal.obj [("name", JVal.str "n1")]]),
       ("queue", JVal.str "q1"), ("routing_key", JVal.str "rk1")])) = .ok [] := by
  exact skip_on_missing_exchange (JVal.str "v") "telemetry" _ (Or.inl rfl)

theorem lookupField_eraseKey_self (fs : List (String × JVal)) (key : String) :
    lookupField (eraseKey fs key) key = none := by
  induction fs with
  | nil => rfl
  | cons a l ih =>
    obtain ⟨k, w⟩ := a
    by_cases h : k = key
    · have hb : (k != key) = false := by simp [h]
      simpa [eraseKey, List.filter_cons, hb] using ih
    · have hb : (k != key) = true := by simp [h]
      simp only [eraseKey, List.filter_cons, hb, if_true]
      simpa [lookupField, h, eraseKey] using ih

theorem lookupField_eraseKey_ne (fs : List (String × JVal)) (key k : String) (h : k ≠ key) :
    lookupField (eraseKey fs key) k = lookupField fs k := by
  induction fs with
  | nil => rfl
  | cons a l ih =>
    obtain ⟨k', w⟩ := a
    by_cases ha : k' = key
    · have hb : (k' != key) = false := by simp [ha]
      have hk' : k' ≠ k := fun hk => h (hk ▸ ha)
      simp only [eraseKey, List.filter_cons, hb, if_false, lookupField, hk', if_neg hk']
      simpa [eraseKey] using ih
    · have hb : (k' != key) = true := by simp [ha]
      by_cases hk : k' = k
      · simp [eraseKey, List.filter_cons, hb, lookupField, hk, h]
      · simp only [eraseKey, List.filter_cons, hb, if_true, lookupField, if_neg hk]
        simpa [eraseKey] using ih

theorem legacyTuples_ok (fs : List (String × JVal)) (ex : JVal) :
    ∃ l, legacyTuples (.obj fs) ex = .ok l := by
  unfold legacyTuples
  cases h : lookupField fs "queue" with
  | none => exact ⟨[], by simp [pyGet, h, bind, Except.bind]⟩
  | some qn =>
    cases htq : qn.truthy with
    | false => exact ⟨[], by simp [pyGet, h, htq, bind, Except.bind]⟩
    | true =>
      exact ⟨[(ex, qn, (lookupField fs "routing_key").getD (.str "#"))],
        by simp [pyGet, h, htq, bind, Except.bind]⟩

theorem queuesForBlock_ok_of_queues_none (name : String) (fs : List (String × JVal))
    (h : lookupField fs "queues" = none) :
    ∃ ts, queuesForBlock name (some (.obj fs)) = .ok ts := by
  by_cases hobj : (JVal.obj fs).truthy = true
  · cases hex : lookupField fs "exchange" with
    | none => exact ⟨[], by simp [queuesForBlock, hobj, pyGet, hex, bind, Except.bind]⟩
    | some ex =>
      cases htx : ex.truthy with
      | false => exact ⟨[], by simp [queuesForBlock, hobj, pyGet, hex, htx, bind, Except.bind]⟩
      | true =>
        by_cases hcmd : name = "commands"
        · exact ⟨[], by simp [queuesForBlock, hobj, pyGet, hex, htx, hcmd, bind, Except.bind]⟩
        · obtain ⟨l, hl⟩ := legacyTuples_ok fs ex
          exact ⟨l, by simp [queuesForBlock, hobj, pyGet, hex, htx, hcmd, h, bind, Except.bind, hl]⟩
  · rw [Bool.not_eq_true] at hobj
    exact ⟨[], by simp [queuesForBlock, hobj]⟩

/-- C10: a `queues` field that is not a list is treated exactly as if it
were absent (legacy fallback, no error), and a `queues[]` entry without a
truthy `name` is skipped without aborting the remaining entries. -/
theorem queues_malformed_graceful (name : String) (fs : List (String × JVal)) (v : JVal)
    (hq : lookupField fs "queues" = some v) (hnl : v.isArr = false) :
    (∃ ts, queuesForBlock name (some (.obj fs)) = .ok ts) ∧
    queuesForBlock name (some (.obj fs)) =
      queuesForBlock name (some (.obj (eraseKey fs "queues"))) ∧
    (∀ ex fs' rest, (lookupField fs' "name" = none ∨
         ∃ nv, lookupField fs' "name" = some nv ∧ nv.truthy = false) →
       newStyleTuples ex (.obj fs' :: rest) = newStyleTuples ex rest) := by
  have hobj := lookupField_ne_nil hq
  have hex' : ∀ k, k ≠ "queues" →
      lookupField (eraseKey fs "queues") k = lookupField fs k :=
    fun k hk => lookupField_eraseKey_ne fs "queues" k hk
  have hq' : lookupField (eraseKey fs "queues") "queues" = none :=
    lookupField_eraseKey_self fs "queues"
  have heq : queuesForBlock name (some (.obj fs)) =
      queuesForBlock name (some (.obj (eraseKey fs "queues"))) := by
    cases hex : lookupField fs "exchange" with
    | none =>
      have hexe := ( hex' "exchange" (by decide)).trans hex
      by_cases hobj' : (JVal.obj (eraseKey fs "queues")).truthy = true
      · simp [queuesForBlock, hobj, hobj', pyGet, hex, hexe, bind, Except.bind]
      · rw [Bool.not_eq_true] at hobj'
        simp [queuesForBlock, hobj, hobj', pyGet, hex, bind, Except.bind]
    | some ex =>
      have hexe := ( hex' "exchange" (by decide)).trans hex
      have hobj' := lookupField_ne_nil hexe
      have hqu := hex' "queue" (by decide)
      have hrk := hex' "routing_key" (by decide)
      by_cases htx : ex.truthy = true
      · by_cases hcmd : name = "commands"
        · simp [queuesForBlock, hobj, hobj', pyGet, hex, hexe, htx, hcmd, bind, Except.bind]
        · cases v with
          | arr xs => simp [JVal.isArr] at hnl
          | str s =>
            simp [queuesForBlock, hobj, hobj', pyGet, hex, hexe, hq, hq', htx, hcmd,
              legacyTuples, hqu, hrk, bind, Except.bind]
          | num n =>
            simp [queuesForBlock, hobj, hobj', pyGet, hex, hexe, hq, hq', htx, hcmd,
              legacyTuples, hqu, hrk, bind, Except.bind]
          | bool b =>
            simp [queuesForBlock, hobj, hobj', pyGet, hex, hexe, hq, hq', htx, hcmd,
              legacyTuples, hqu, hrk, bind, Except.bind]
          | null =>
            simp [queuesForBlock, hobj, hobj', pyGet, hex, hexe, hq, hq', htx, hcmd,
              legacyTuples, hqu, hrk, bind, Except.bind]
          | obj gs =>
            simp [queuesForBlock, hobj, hobj', pyGet, hex, hexe, hq, hq', htx, hcmd,
              legacyTuples, hqu, hrk, bind, Except.bind]
      · rw [Bool.not_eq_true] at htx
        simp [queuesForBlock, hobj, hobj', pyGet, hex, hexe, htx, bind, Except.bind]
  refine ⟨?_, heq, ?_⟩
  · rw [heq]
    exact queuesForBlock_ok_of_queues_none name (eraseKey fs "queues") hq'
  · intro ex fs' rest h
    rcases h with h | ⟨nv, h, hnv⟩
    · simp [newStyleTuples, pyGet, h, bind, Except.bind]
    · simp [newStyleTuples, pyGet, h, hnv, bind, Except.bind]

theorem queues_malformed_graceful_witness :
    lookupField [("exchange", JVal.str "tel"), ("queues", JVal.str "oops"),
      ("queue", JVal.str "q1")] "queues" = some (JVal.str "oops") ∧
    (JVal.str "oops").isArr = false ∧
    queuesForBlock "telemetry" (some (.obj [("exchange", JVal.str "tel"),
      ("queues", JVal.str "oops"), ("queue", JVal.str "q1")])) =
      queuesForBlock "telemetry" (some (.obj
        (eraseKey [("exchange", JVal.str "tel"), ("queues", JVal.str "oops"),
          ("queue", JVal.str "q1")] "queues"))) := by
  refine ⟨rfl, rfl, ?_⟩
  exact (queues_malformed_graceful "telemetry"
    [("exchange", JVal.str "tel"), ("queues", JVal.str "oops"), ("queue", JVal.str "q1")]
    (JVal.str "oops") rfl rfl).2.1

/-- C1: the end-to-end example input yields exactly the plan
ensure-vhost(kade), ensure-exchange(kade,telemetry),
ensure-exchange(kade,commands), ensure-queue(kade,hammerspace.to-aws),
ensure-binding(kade,telemetry,hammerspace.to-aws,hammerspace.#), raises
nothing, and no operation references the queue name hammerspace.from-aws. -/
theorem end_to_end_example_plan :
    mainRun cfgC1 =
      ([Op.ensureVhost (.str "kade"),
        Op.ensureExchange (.str "kade") (.str "telemetry"),
        Op.ensureExchange (.str "kade") (.str "commands"),
        Op.ensureQueue (.str "kade") (.str "hammerspace.to-aws"),
        Op.ensureBinding (.str "kade") (.str "telemetry") (.str "hammerspace.to-aws")
          (.str "hammerspace.#")], none) ∧
    ((mainRun cfgC1).1.all fun op => !op.mentions "hammerspace.from-aws") = true :=
  ⟨rfl, rfl⟩

theorem execCalls_dry (env : Nat → ReqResult) (k : Nat) (cs : List HttpCall) :
    execCalls true env k cs = (cs.map renderReq, [], none) := by
  induction cs generalizing k with
  | nil => rfl
  | cons c rest ih => simp [execCalls, ih]

theorem execCalls_live_ok (k : Nat) (cs : List HttpCall) :
    execCalls false (fun _ => ReqResult.success) k cs = ([], cs, none) := by
  induction cs generalizing k with
  | nil => rfl
  | cons c rest ih => simp [execCalls, ih]

/-- C4: in dry-run mode no network call is performed (whatever outcomes
the network would have produced), and the trace is exactly one rendered
line — method, target URL, JSON body — per HTTP call, in the order live
mode would issue them; live mode on an all-success network performs
exactly that call list. -/
theorem dry_run_equivalence (cfg : JVal) (baseUrl : String)
    (env env' : Nat → ReqResult) (k k' : Nat) :
    execCalls true env k (planCalls baseUrl cfg) =
      ((planCalls baseUrl cfg).map renderReq, [], none) ∧
    execCalls true env k (planCalls baseUrl cfg) =
      execCalls true env' k' (planCalls baseUrl cfg) ∧
    (execCalls false (fun _ => ReqResult.success) k (planCalls baseUrl cfg)).2.1 =
      planCalls baseUrl cfg := by
  refine ⟨execCalls_dry env k _, ?_, ?_⟩
  · rw [execCalls_dry, execCalls_dry]
  · rw [execCalls_live_ok]

theorem execCalls_fail (cs : List HttpCall) (env : Nat → ReqResult) (k i : Nat)
    (c : HttpCall) (d : String)
    (hc : cs[i]? = some c) (hok : ∀ j, j < i → env (k + j) = .success)
    (hfail : env (k + i) = .failure d) :
    execCalls false env k cs = ([], cs.take (i + 1), some (c, d)) := by
  induction cs generalizing k i with
  | nil => simp at hc
  | cons c0 rest ih =>
    cases i with
    | zero =>
      have hc0 : c0 = c := by simpa using hc
      have h0 : env k = .failure d := by simpa using hfail
      subst hc0
      simp [execCalls, h0]
    | succ i =>
      have h0 : env k = .success := by
        have := hok 0 (Nat.succ_pos i)
        simpa using this
      have hc' : rest[i]? = some c := by simpa using hc
      have hok' : ∀ j, j < i → env (k + 1 + j) = .success := by
        intro j hj
        have := hok (j + 1) (by omega)
        rw [show k + 1 + j = k + (j + 1) by omega]
        exact this
      have hfail' : env (k + 1 + i) = .failure d := by
        rw [show k + 1 + i = k + (i + 1) by omega]
        exact hfail
      simp [execCalls, h0, ih (k + 1) i hc' hok' hfail']

/-- C8: in live mode, when the network fails the call at index i (all
earlier calls succeeding), the run performs exactly the first i+1 calls —
each once, nothing after index i, nothing rolled back — and aborts with
an error naming the failing call and its HTTP outcome. -/
theorem live_fail_fast (cfg : JVal) (baseUrl : String) (env : Nat → ReqResult) (i : Nat)
    (c : HttpCall) (d : String)
    (hc : (planCalls baseUrl cfg)[i]? = some c)
    (hok : ∀ j, j < i → env j = .success)
    (hfail : env i = .failure d) :
    execCalls false env 0 (planCalls baseUrl cfg) =
      ([], (planCalls baseUrl cfg).take (i + 1), some (c, d)) := by
  exact execCalls_fail _ env 0 i c d hc
    (fun j hj => by simpa using hok j hj) (by simpa using hfail)

theorem live_fail_fast_witness :
    execCalls false (fun _ => ReqResult.failure "HTTPError 500") 0
      (planCalls "http://h" (.obj [("vhost", JVal.str "v")])) =
      ([], (planCalls "http://h" (.obj [("vhost", JVal.str "v")])).take 1,
       some (⟨"PUT", "http://h/api/vhosts/v", none⟩, "HTTPError 500")) := by
  exact live_fail_fast (.obj [("vhost", JVal.str "v")]) "http://h"
    (fun _ => ReqResult.failure "HTTPError 500") 0
    ⟨"PUT", "http://h/api/vhosts/v", none⟩ "HTTPError 500" rfl
    (fun j hj => absurd hj (Nat.not_lt_zero j)) rfl

theorem newStyleTuples_ok (ex : JVal) (qs : List JVal) (h : ∀ q ∈ qs, q.isObj = true) :
    ∃ ts, newStyleTuples ex qs = .ok ts := by
  induction qs with
  | nil => exact ⟨[], rfl⟩
  | cons q rest ih =>
    obtain ⟨ts, hts⟩ := ih fun x hx => h x (List.mem_cons_of_mem q hx)
    have hq := h q (List.mem_cons_self q rest)
    cases q with
    | obj gs =>
      cases hn : lookupField gs "name" with
      | none => exact ⟨ts, by simp [newStyleTuples, pyGet, hn, bind, Except.bind, hts]⟩
      | some qn =>
        cases htn : qn.truthy with
        | false => exact ⟨ts, by simp [newStyleTuples, pyGet, hn, htn, bind, Except.bind, hts]⟩
        | true =>
          exact ⟨(ex, qn, (lookupField gs "routing_key").getD (.str "#")) :: ts,
            by simp [newStyleTuples, pyGet, hn, htn, bind, Except.bind, hts]⟩
    | str s => simp [JVal.isObj] at hq
    | num n => simp [JVal.isObj] at hq
    | bool b => simp [JVal.isObj] at hq
    | null => simp [JVal.isObj] at hq
    | arr xs => simp [JVal.isObj] at hq

theorem ensureExchangeOps_ok (v : JVal) (blk : Option JVal) (h : blockWF blk = true) :
    ensureExchangeOps v blk = .ok (exOpsOk v blk) := by
  suffices hex : ∃ ops, ensureExchangeOps v blk = .ok ops by
    obtain ⟨ops, hops⟩ := hex
    rw [hops]
    simp [exOpsOk, hops, Except.toOption]
  cases blk with
  | none => exact ⟨[], rfl⟩
  | some b =>
    by_cases ht : b.truthy = true
    · cases b with
      | obj fs =>
        cases hexl : lookupField fs "exchange" with
        | none => exact ⟨[], by simp [ensureExchangeOps, ht, pyGet, hexl, bind, Except.bind]⟩
        | some ex =>
          cases htx : ex.truthy with
          | false =>
            exact ⟨[], by simp [ensureExchangeOps, ht, pyGet, hexl, htx, bind, Except.bind]⟩
          | true =>
            exact ⟨[Op.ensureExchange v ex],
              by simp [ensureExchangeOps, ht, pyGet, hexl, htx, bind, Except.bind]⟩
      | str s => simp [blockWF, ht] at h
      | num n => simp [blockWF, ht] at h
      | bool b' => simp [blockWF, ht] at h
      | null => simp [blockWF, ht] at h
      | arr xs => simp [blockWF, ht] at h
    · rw [Bool.not_eq_true] at ht
      exact ⟨[], by simp [ensureExchangeOps, ht]⟩

theorem exOpsOk_eq_declared (v : JVal) (blk : Option JVal) :
    exOpsOk v blk =
      match declaredExchange blk with
      | some ex => [Op.ensureExchange v ex]
      | none => [] := by
  cases blk with
  | none => rfl
  | some b =>
    by_cases ht : b.truthy = true
    · cases b with
      | obj fs =>
        cases hexl : lookupField fs "exchange" with
        | none =>
          simp [exOpsOk, ensureExchangeOps, declaredExchange, ht, pyGet, hexl,
            bind, Except.bind, Except.toOption]
        | some ex =>
          cases htx : ex.truthy with
          | false =>
            simp [exOpsOk, ensureExchangeOps, declaredExchange, ht, pyGet, hexl, htx,
              bind, Except.bind, Except.toOption]
          | true =>
            simp [exOpsOk, ensureExchangeOps, declaredExchange, ht, pyGet, hexl, htx,
              bind, Except.bind, Except.toOption]
      | str s => simp [exOpsOk, ensureExchangeOps, declaredExchange, ht, pyGet,
          bind, Except.bind, Except.toOption]
      | num n => simp [exOpsOk, ensureExchangeOps, declaredExchange, ht, pyGet,
          bind, Except.bind, Except.toOption]
      | bool b' => simp [exOpsOk, ensureExchangeOps, declaredExchange, ht, pyGet,
          bind, Except.bind, Except.toOption]
      | null => simp [exOpsOk, ensureExchangeOps, declaredExchange, ht, pyGet,
          bind, Except.bind, Except.toOption]
      | arr xs => simp [exOpsOk, ensureExchangeOps, declaredExchange, ht, pyGet,
          bind, Except.bind, Except.toOption]
    · rw [Bool.not_eq_true] at ht
      cases b <;>
        simp [exOpsOk, ensureExchangeOps, declaredExchange, ht, Except.toOption]

theorem queuesForBlock_ok (name : String) (blk : Option JVal) (h : blockWF blk = true) :
    queuesForBlock name blk = .ok (tuplesOk name blk) := by
  suffices hex : ∃ ts, queuesForBlock name blk = .ok ts by
    obtain ⟨ts, hts⟩ := hex
    rw [hts]
    simp [tuplesOk, hts, Except.toOption]
  cases blk with
  | none => exact ⟨[], rfl⟩
  | some b =>
    by_cases ht : b.truthy = true
    · cases b with
      | obj fs =>
        cases hexl : lookupField fs "exchange" with
        | none => exact ⟨[], by simp [queuesForBlock, ht, pyGet, hexl, bind, Except.bind]⟩
        | some ex =>
          cases htx : ex.truthy with
          | false =>
            exact ⟨[], by simp [queuesForBlock, ht, pyGet, hexl, htx, bind, Except.bind]⟩
          | true =>
            by_cases hcmd : name = "commands"
            · exact ⟨[], by simp [queuesForBlock, ht, pyGet, hexl, htx, hcmd,
                bind, Except.bind]⟩
            · cases hqs : lookupField fs "queues" with
              | none =>
                obtain ⟨l, hl⟩ := legacyTuples_ok fs ex
                exact ⟨l, by simp [queuesForBlock, ht, pyGet, hexl, htx, hcmd, hqs,
                  bind, Except.bind, hl]⟩
              | some qv =>
                cases qv with
                | arr qs =>
                  by_cases hne : qs.isEmpty = true
                  · obtain ⟨l, hl⟩ := legacyTuples_ok fs ex
                    exact ⟨l, by simp [queuesForBlock, ht, pyGet, hexl, htx, hcmd, hqs, hne,
                      bind, Except.bind, hl]⟩
                  · have hall : ∀ q ∈ qs, q.isObj = true := by
                      have hb : blockWF (some (.obj fs)) = true := h
                      simp only [blockWF, hqs] at hb
                      exact fun q hq => by
                        have := List.all_eq_true.mp hb q hq
                        simpa using this
                    obtain ⟨ts, hts⟩ := newStyleTuples_ok ex qs hall
                    rw [Bool.not_eq_true] at hne
                    exact ⟨ts, by simp [queuesForBlock, ht, pyGet, hexl, htx, hcmd, hqs, hne,
                      bind, Except.bind, hts]⟩
                | str s =>
                  obtain ⟨l, hl⟩ := legacyTuples_ok fs ex
                  exact ⟨l, by simp [queuesForBlock, ht, pyGet, hexl, htx, hcmd, hqs,
                    bind, Except.bind, hl]⟩
                | num n =>
                  obtain ⟨l, hl⟩ := legacyTuples_ok fs ex
                  exact ⟨l, by simp [queuesForBlock, ht, pyGet, hexl, htx, hcmd, hqs,
                    bind, Except.bind, hl]⟩
                | bool b' =>
                  obtain ⟨l, hl⟩ := legacyTuples_ok fs ex
                  exact ⟨l, by simp [queuesForBlock, ht, pyGet, hexl, htx, hcmd, hqs,
                    bind, Except.bind, hl]⟩
                | null =>
                  obtain ⟨l, hl⟩ := legacyTuples_ok fs ex
                  exact ⟨l, by simp [queuesForBlock, ht, pyGet, hexl, htx, hcmd, hqs,
                    bind, Except.bind, hl]⟩
                | obj gs =>
                  obtain ⟨l, hl⟩ := legacyTuples_ok fs ex
                  exact ⟨l, by simp [queuesForBlock, ht, pyGet, hexl, htx, hcmd, hqs,
                    bind, Except.bind, hl]⟩
      | str s => simp [blockWF, ht] at h
      | num n => simp [blockWF, ht] at h
      | bool b' => simp [blockWF, ht] at h
      | null => simp [blockWF, ht] at h
      | arr xs => simp [blockWF, ht] at h
    · rw [Bool.not_eq_true] at ht
      exact ⟨[], by simp [queuesForBlock, ht]⟩

theorem ensureQABOps_ok (v : JVal) (name : String) (blk : Option JVal)
    (h : blockWF blk = true) :
    ensureQueuesAndBindingsOps v name blk =
      .ok ((tuplesOk name blk).flatMap (pairOps v)) := by
  simp [ensureQueuesAndBindingsOps, queuesForBlock_ok name blk h, bind, Except.bind]

theorem runPhase_ok {α : Type} (f : α → Except String (List Op)) (g : α → List Op)
    (l : List α) (h : ∀ x ∈ l, f x = .ok (g x)) :
    runPhase f l = (l.flatMap g, none) := by
  induction l with
  | nil => rfl
  | cons x rest ih =>
    have hx := h x (List.mem_cons_self x rest)
    have hrest := ih fun y hy => h y (List.mem_cons_of_mem x hy)
    simp [runPhase, hx, hrest]

theorem sectionsOf_blockWF (fs : List (String × JVal)) (hwf : cfgWF (.obj fs) = true) :
    ∀ s ∈ sectionsOf (.obj fs), blockWF s.2 = true := by
  intro s hs
  simp only [cfgWF, channelNames, List.all_cons, List.all_nil, Bool.and_true,
    Bool.and_eq_true] at hwf
  simp only [sectionsOf, channelNames, List.map_cons, List.map_nil, List.mem_cons,
    List.not_mem_nil, or_false] at hs
  rcases hs with h | h | h | h <;> subst h <;> simp [jget] <;> tauto

theorem mainRun_structure (fs : List (String × JVal)) (v : JVal)
    (hwf : cfgWF (.obj fs) = true) (hv : lookupField fs "vhost" = some v) :
    mainRun (.obj fs) =
      (Op.ensureVhost v ::
        ((sectionsOf (.obj fs)).flatMap fun s => exOpsOk v s.2) ++
        (((sectionsOf (.obj fs)).flatMap fun s => tuplesOk s.1 s.2).flatMap (pairOps v)),
       none) := by
  have hbw := sectionsOf_blockWF fs hwf
  have hph1 : runPhase (fun s => ensureExchangeOps v s.2) (sectionsOf (.obj fs)) =
      ((sectionsOf (.obj fs)).flatMap fun s => exOpsOk v s.2, none) :=
    runPhase_ok _ _ _ fun s hs => ensureExchangeOps_ok v s.2 (hbw s hs)
  have hph2 : runPhase (fun s => ensureQueuesAndBindingsOps v s.1 s.2) (sectionsOf (.obj fs)) =
      ((sectionsOf (.obj fs)).flatMap fun s => (tuplesOk s.1 s.2).flatMap (pairOps v), none) :=
    runPhase_ok _ _ _ fun s hs => ensureQABOps_ok v s.1 s.2 (hbw s hs)
  simp [mainRun, pyIndex, hv, hph1, hph2, List.flatMap_assoc]

/-- C7 counterexample: a document whose `vhost` field is present can still
make the run error — `telemetry` bound to a truthy non-dict (the string
"x") raises AttributeError in `ensure_exchange` — refuting "a missing
vhost is the only failure; every other malformed sub-field degrades to
omission". -/
theorem vhost_not_only_failure :
    (JVal.jget (.obj [("vhost", JVal.str "v"), ("telemetry", JVal.str "x")]) "vhost").isSome
      = true ∧
    ((mainRun (.obj [("vhost", JVal.str "v"), ("telemetry", JVal.str "x")])).2).isSome
      = true :=
  ⟨rfl, rfl⟩

/-- C7 (amended): the `vhost` extraction is the only failure preceding all
operations — it fails, with an empty performed-operation prefix, exactly
when `vhost` is absent from the document; and on documents whose channel
entries are absent, falsy, or dicts whose `queues` arrays hold only dicts,
no other error arises: missing channel blocks, missing exchanges, missing
queue names and non-list `queues` values merely omit operations. A truthy
non-dict channel block or a non-dict `queues[]` entry, however, still
raises (see the counterexample). -/
theorem vhost_failure_amended (fs : List (String × JVal)) :
    (lookupField fs "vhost" = none ↔
      (mainRun (.obj fs)).1 = [] ∧ (mainRun (.obj fs)).2.isSome = true) ∧
    (cfgWF (.obj fs) = true → ∀ v, lookupField fs "vhost" = some v →
      (mainRun (.obj fs)).2 = none) := by
  constructor
  · constructor
    · intro h
      simp [mainRun, pyIndex, h]
    · rintro ⟨h1, h2⟩
      cases hv : lookupField fs "vhost" with
      | none => rfl
      | some v =>
        exfalso
        rcases hph : runPhase (fun s => ensureExchangeOps v s.2) (sectionsOf (.obj fs))
          with ⟨exOps, e?⟩
        cases e? with
        | some e => simp [mainRun, pyIndex, hv, hph] at h1
        | none =>
          rcases hph2 : runPhase (fun s => ensureQueuesAndBindingsOps v s.1 s.2)
            (sectionsOf (.obj fs)) with ⟨qOps, qe⟩
          simp [mainRun, pyIndex, hv, hph, hph2] at h1
  · intro hwf v hv
    rw [mainRun_structure fs v hwf hv]

theorem vhost_failure_amended_witness :
    (lookupField [("vhost", JVal.str "v"), ("telemetry", JVal.null)] "vhost" =
      some (JVal.str "v")) ∧
    cfgWF (.obj [("vhost", JVal.str "v"), ("telemetry", JVal.null)]) = true ∧
    (mainRun (.obj [("vhost", JVal.str "v"), ("telemetry", JVal.null)])).2 = none := by
  refine ⟨rfl, rfl, ?_⟩
  exact (vhost_failure_amended [("vhost", JVal.str "v"), ("telemetry", JVal.null)]).2
    rfl (JVal.str "v") rfl

theorem newStyleTuples_fst (ex : JVal) (qs : List JVal) (ts : List (JVal × JVal × JVal))
    (h : newStyleTuples ex qs = .ok ts) : ∀ t ∈ ts, t.1 = ex := by
  induction qs generalizing ts with
  | nil =>
    simp [newStyleTuples] at h
    subst h
    simp
  | cons q rest ih =>
    cases q with
    | obj gs =>
      cases hn : lookupField gs "name" with
      | none =>
        exact ih ts (by simpa [newStyleTuples, pyGet, hn, bind, Except.bind] using h)
      | some qn =>
        cases htn : qn.truthy with
        | false =>
          exact ih ts (by simpa [newStyleTuples, pyGet, hn, htn, bind, Except.bind] using h)
        | true =>
          cases hrest : newStyleTuples ex rest with
          | error e =>
            simp [newStyleTuples, pyGet, hn, htn, bind, Except.bind, hrest] at h
          | ok ts' =>
            have hts : (ex, qn, (lookupField gs "routing_key").getD (.str "#")) :: ts' = ts := by
              simpa [newStyleTuples, pyGet, hn, htn, bind, Except.bind, hrest] using h
            subst hts
            intro t ht
            rcases List.mem_cons.mp ht with rfl | ht'
            · rfl
            · exact ih ts' hrest t ht'
    | str s => simp [newStyleTuples, pyGet, bind, Except.bind] at h
    | num n => simp [newStyleTuples, pyGet, bind, Except.bind] at h
    | bool b => simp [newStyleTuples, pyGet, bind, Except.bind] at h
    | null => simp [newStyleTuples, pyGet, bind, Except.bind] at h
    | arr xs => simp [newStyleTuples, pyGet, bind, Except.bind] at h

theorem legacyTuples_fst (fs : List (String × JVal)) (ex : JVal)
    (l : List (JVal × JVal × JVal)) (h : legacyTuples (.obj fs) ex = .ok l) :
    ∀ t ∈ l, t.1 = ex := by
  cases hq : lookupField fs "queue" with
  | none =>
    have : l = [] := by
      have := h
      simp [legacyTuples, pyGet, hq, bind, Except.bind] at this
      exact this
    subst this
    simp
  | some qn =>
    cases htq : qn.truthy with
    | false =>
      have : l = [] := by
        have := h
        simp [legacyTuples, pyGet, hq, htq, bind, Except.bind] at this
        exact this
      subst this
      simp
    | true =>
      have : (ex, qn, (lookupField fs "routing_key").getD (.str "#")) :: [] = l := by
        simpa [legacyTuples, pyGet, hq, htq, bind, Except.bind] using h
      subst this
      intro t ht
      rcases List.mem_cons.mp ht with rfl | ht'
      · rfl
      · simp at ht'

theorem tuplesOk_exchange (name : String) (blk : Option JVal)
    (t : JVal × JVal × JVal) (h : t ∈ tuplesOk name blk) :
    declaredExchange blk = some t.1 := by
  cases blk with
  | none => simp [tuplesOk, queuesForBlock, Except.toOption] at h
  | some b =>
    by_cases ht : b.truthy = true
    · cases b with
      | obj fs =>
        cases hexl : lookupField fs "exchange" with
        | none =>
          simp [tuplesOk, queuesForBlock, ht, pyGet, hexl, bind, Except.bind,
            Except.toOption] at h
        | some ex =>
          cases htx : ex.truthy with
          | false =>
            simp [tuplesOk, queuesForBlock, ht, pyGet, hexl, htx, bind, Except.bind,
              Except.toOption] at h
          | true =>
            have hdecl : declaredExchange (some (JVal.obj fs)) = some ex := by
              simp [declaredExchange, ht, hexl, htx]
            suffices hfst : t.1 = ex by rw [hdecl, hfst]
            by_cases hcmd : name = "commands"
            · simp [tuplesOk, queuesForBlock, ht, pyGet, hexl, htx, hcmd, bind, Except.bind,
                Except.toOption] at h
            · cases hqs : lookupField fs "queues" with
              | none =>
                obtain ⟨l, hl⟩ := legacyTuples_ok fs ex
                have hmem : t ∈ l := by
                  simpa [tuplesOk, queuesForBlock, ht, pyGet, hexl, htx, hcmd, hqs,
                    bind, Except.bind, Except.toOption, hl] using h
                exact legacyTuples_fst fs ex l hl t hmem
              | some qv =>
                cases qv with
                | arr qs =>
                  by_cases hne : qs.isEmpty = true
                  · obtain ⟨l, hl⟩ := legacyTuples_ok fs ex
                    have hmem : t ∈ l := by
                      simpa [tuplesOk, queuesForBlock, ht, pyGet, hexl, htx, hcmd, hqs, hne,
                        bind, Except.bind, Except.toOption, hl] using h
                    exact legacyTuples_fst fs ex l hl t hmem
                  · rw [Bool.not_eq_true] at hne
                    cases hnst : newStyleTuples ex qs with
                    | error e =>
                      simp [tuplesOk, queuesForBlock, ht, pyGet, hexl, htx, hcmd, hqs, hne,
                        bind, Except.bind, Except.toOption, hnst] at h
                    | ok ts =>
                      have hmem : t ∈ ts := by
                        simpa [tuplesOk, queuesForBlock, ht, pyGet, hexl, htx, hcmd, hqs, hne,
                          bind, Except.bind, Except.toOption, hnst] using h
                      exact newStyleTuples_fst ex qs ts hnst t hmem
                | str s =>
                  obtain ⟨l, hl⟩ := legacyTuples_ok fs ex
                  have hmem : t ∈ l := by
                    simpa [tuplesOk, queuesForBlock, ht, pyGet, hexl, htx, hcmd, hqs,
                      bind, Except.bind, Except.toOption, hl] using h
                  exact legacyTuples_fst fs ex l hl t hmem
                | num n =>
                  obtain ⟨l, hl⟩ := legacyTuples_ok fs ex
                  have hmem : t ∈ l := by
                    simpa [tuplesOk, queuesForBlock, ht, pyGet, hexl, htx, hcmd, hqs,
                      bind, Except.bind, Except.toOption, hl] using h
                  exact legacyTuples_fst fs ex l hl t hmem
                | bool b' =>
                  obtain ⟨l, hl⟩ := legacyTuples_ok fs ex
                  have hmem : t ∈ l := by
                    simpa [tuplesOk, queuesForBlock, ht, pyGet, hexl, htx, hcmd, hqs,
                      bind, Except.bind, Except.toOption, hl] using h
                  exact legacyTuples_fst fs ex l hl t hmem
                | null =>
                  obtain ⟨l, hl⟩ := legacyTuples_ok fs ex
                  have hmem : t ∈ l := by
                    simpa [tuplesOk, queuesForBlock, ht, pyGet, hexl, htx, hcmd, hqs,
                      bind, Except.bind, Except.toOption, hl] using h
                  exact legacyTuples_fst fs ex l hl t hmem
                | obj gs =>
                  obtain ⟨l, hl⟩ := legacyTuples_ok fs ex
                  have hmem : t ∈ l := by
                    simpa [tuplesOk, queuesForBlock, ht, pyGet, hexl, htx, hcmd, hqs,
                      bind, Except.bind, Except.toOption, hl] using h
                  exact legacyTuples_fst fs ex l hl t hmem
      | str s =>
        simp [tuplesOk, queuesForBlock, ht, pyGet, bind, Except.bind, Except.toOption] at h
      | num n =>
        simp [tuplesOk, queuesForBlock, ht, pyGet, bind, Except.bind, Except.toOption] at h
      | bool b' =>
        simp [tuplesOk, queuesForBlock, ht, pyGet, bind, Except.bind, Except.toOption] at h
      | null =>
        simp [tuplesOk, queuesForBlock, ht, pyGet, bind, Except.bind, Except.toOption] at h
      | arr xs =>
        simp [tuplesOk, queuesForBlock, ht, pyGet, bind, Except.bind, Except.toOption] at h
    · rw [Bool.not_eq_true] at ht
      simp [tuplesOk, queuesForBlock, ht, Except.toOption] at h

theorem pairOps_binding_index (w : JVal) (ts : List (JVal × JVal × JVal)) :
    ∀ i w' ex q rk,
      (ts.flatMap (pairOps w))[i]? = some (Op.ensureBinding w' ex q rk) →
      w' = w ∧ (ex, q, rk) ∈ ts ∧ 1 ≤ i ∧
      (ts.flatMap (pairOps w))[i - 1]? = some (Op.ensureQueue w q) := by
  induction ts with
  | nil => intro i w' ex q rk h; simp at h
  | cons t rest ih =>
    obtain ⟨ta, tb, tc⟩ := t
    intro i w' ex q rk h
    have hL : ((ta, tb, tc) :: rest).flatMap (pairOps w) =
        Op.ensureQueue w tb :: Op.ensureBinding w ta tb tc ::
          rest.flatMap (pairOps w) := by
      simp [pairOps]
    rw [hL] at h
    match i with
    | 0 => simp at h
    | 1 =>
      simp at h
      obtain ⟨hw, hex, hq, hrk⟩ := h
      subst hw hex hq hrk
      exact ⟨rfl, List.mem_cons_self _ _, le_refl 1, by rw [hL]; rfl⟩
    | (n + 2) =>
      rw [List.getElem?_cons_succ, List.getElem?_cons_succ] at h
      obtain ⟨hw, hmem, hge, hqueue⟩ := ih n w' ex q rk h
      obtain ⟨m, rfl⟩ : ∃ m, n = m + 1 := ⟨n - 1, by omega⟩
      refine ⟨hw, List.mem_cons_of_mem _ hmem, by omega, ?_⟩
      rw [hL]
      have hidx : m + 1 + 2 - 1 = m + 1 + 1 := by omega
      rw [hidx, List.getElem?_cons_succ, List.getElem?_cons_succ]
      simpa using hqueue

theorem exSeg_shape (v : JVal) (secs : List (String × Option JVal)) :
    ∀ op ∈ secs.flatMap fun s => exOpsOk v s.2,
      ∃ ex, op = Op.ensureExchange v ex := by
  intro op hop
  rw [List.mem_flatMap] at hop
  obtain ⟨s, _, hop⟩ := hop
  rw [exOpsOk_eq_declared] at hop
  cases hd : declaredExchange s.2 with
  | none => rw [hd] at hop; simp at hop
  | some ex =>
    rw [hd] at hop
    simp at hop
    exact ⟨ex, hop⟩

theorem qSeg_shape (v : JVal) (ts : List (JVal × JVal × JVal)) :
    ∀ op ∈ ts.flatMap (pairOps v),
      (∃ q, op = Op.ensureQueue v q) ∨ ∃ e q r, op = Op.ensureBinding v e q r := by
  intro op hop
  rw [List.mem_flatMap] at hop
  obtain ⟨t, _, hop⟩ := hop
  simp [pairOps] at hop
  rcases hop with h | h
  · exact Or.inl ⟨t.2.1, h⟩
  · exact Or.inr ⟨t.1, t.2.1, t.2.2, h⟩

/-- C3: on a well-formed config with a vhost: the plan's single
ensure-vhost sits at index 0; it is followed by the per-channel exchange
operations in the fixed declared channel order (telemetry, events,
performance, commands) — one exchange per channel that declared a truthy
exchange — then the queue/binding pairs; the plan depends only on the
key-to-value mapping of the document, not on its key order; and every
ensure-binding is preceded by the ensure-queue of the same queue and the
ensure-exchange of the same exchange. -/
theorem plan_ordering_invariant (fs : List (String × JVal)) (v : JVal)
    (hwf : cfgWF (.obj fs) = true) (hv : lookupField fs "vhost" = some v) :
    ((mainRun (.obj fs)).1)[0]? = some (Op.ensureVhost v) ∧
    ((mainRun (.obj fs)).1).countP Op.isVhostOp = 1 ∧
    (mainRun (.obj fs)).1 =
      Op.ensureVhost v ::
        (channelNames.flatMap fun n => exOpsOk v ((JVal.obj fs).jget n)) ++
        ((channelNames.flatMap fun n => tuplesOk n ((JVal.obj fs).jget n)).flatMap
          (pairOps v)) ∧
    (∀ n, exOpsOk v ((JVal.obj fs).jget n) =
      match declaredExchange ((JVal.obj fs).jget n) with
      | some ex => [Op.ensureExchange v ex]
      | none => []) ∧
    (∀ fs', (∀ k, lookupField fs' k = lookupField fs k) →
      mainRun (.obj fs') = mainRun (.obj fs)) ∧
    (∀ (i : Nat) (w ex q rk : JVal),
      ((mainRun (.obj fs)).1)[i]? = some (Op.ensureBinding w ex q rk) →
      (∃ j : Nat, j < i ∧ ((mainRun (.obj fs)).1)[j]? = some (Op.ensureQueue w q)) ∧
      (∃ j : Nat, j < i ∧ ((mainRun (.obj fs)).1)[j]? = some (Op.ensureExchange w ex))) := by
  have hsE : ((sectionsOf (.obj fs)).flatMap fun s => exOpsOk v s.2) =
      channelNames.flatMap fun n => exOpsOk v ((JVal.obj fs).jget n) := by
    simp [sectionsOf, List.flatMap_map]
  have hsT : ((sectionsOf (.obj fs)).flatMap fun s => tuplesOk s.1 s.2) =
      channelNames.flatMap fun n => tuplesOk n ((JVal.obj fs).jget n) := by
    simp [sectionsOf, List.flatMap_map]
  have hops : (mainRun (.obj fs)).1 =
      Op.ensureVhost v ::
        (channelNames.flatMap fun n => exOpsOk v ((JVal.obj fs).jget n)) ++
        ((channelNames.flatMap fun n => tuplesOk n ((JVal.obj fs).jget n)).flatMap
          (pairOps v)) := by
    rw [mainRun_structure fs v hwf hv]
    rw [← hsE, ← hsT]
  have hEshape : ∀ op ∈ channelNames.flatMap fun n => exOpsOk v ((JVal.obj fs).jget n),
      ∃ ex, op = Op.ensureExchange v ex := by
    intro op hop
    rw [← hsE] at hop
    exact exSeg_shape v _ op hop
  refine ⟨?_, ?_, hops, ?_, ?_, ?_⟩
  · rw [hops, List.cons_append]
    exact List.getElem?_cons_zero
  · rw [hops, List.cons_append]
    rw [List.countP_cons_of_pos _ _ (by simp [Op.isVhostOp]), List.countP_append]
    have h1 : (List.countP Op.isVhostOp
        (channelNames.flatMap fun n => exOpsOk v ((JVal.obj fs).jget n))) = 0 := by
      rw [List.countP_eq_zero]
      intro op hop
      obtain ⟨ex, rfl⟩ := hEshape op hop
      simp [Op.isVhostOp]
    have h2 : (List.countP Op.isVhostOp
        ((channelNames.flatMap fun n => tuplesOk n ((JVal.obj fs).jget n)).flatMap
          (pairOps v))) = 0 := by
      rw [List.countP_eq_zero]
      intro op hop
      rcases qSeg_shape v _ op hop with ⟨q, rfl⟩ | ⟨e, q, r, rfl⟩ <;> simp [Op.isVhostOp]
    rw [h1, h2]
  · intro n
    exact exOpsOk_eq_declared v _
  · intro fs' hk
    have hidx : JVal.pyIndex (.obj fs') "vhost" = JVal.pyIndex (.obj fs) "vhost" := by
      simp [pyIndex, hk "vhost"]
    have hsec : sectionsOf (.obj fs') = sectionsOf (.obj fs) := by
      simp only [sectionsOf]
      exact List.map_congr_left fun n _ => by simp [jget, hk n]
    simp only [mainRun, hidx, hsec]
  · intro i w ex q rk hbind
    rw [hops, List.cons_append] at hbind
    cases i with
    | zero => simp at hbind
    | succ j =>
      rw [List.getElem?_cons_succ] at hbind
      by_cases hj : j < (channelNames.flatMap fun n => exOpsOk v ((JVal.obj fs).jget n)).length
      · rw [List.getElem?_append_left hj] at hbind
        obtain ⟨ex', hex'⟩ := hEshape _ (List.getElem?_mem hbind)
        simp at hex'
      · push_neg at hj
        rw [List.getElem?_append_right hj] at hbind
        obtain ⟨hw, hmem, hge, hqueue⟩ :=
          pairOps_binding_index v _ _ w ex q rk hbind
        subst hw
        constructor
        · refine ⟨((channelNames.flatMap fun n => exOpsOk w ((JVal.obj fs).jget n)).length
            + (j - (channelNames.flatMap fun n => exOpsOk w ((JVal.obj fs).jget n)).length
              - 1)) + 1, by omega, ?_⟩
          rw [hops, List.cons_append, List.getElem?_cons_succ,
            List.getElem?_append_right (by omega)]
          have harith :
              (channelNames.flatMap fun n => exOpsOk w ((JVal.obj fs).jget n)).length
                + (j - (channelNames.flatMap fun n =>
                    exOpsOk w ((JVal.obj fs).jget n)).length - 1)
                - (channelNames.flatMap fun n => exOpsOk w ((JVal.obj fs).jget n)).length
              = j - (channelNames.flatMap fun n =>
                  exOpsOk w ((JVal.obj fs).jget n)).length - 1 := by omega
          rw [harith]
          exact hqueue
        · have hmem2 : Op.ensureExchange w ex ∈
              channelNames.flatMap fun n => exOpsOk w ((JVal.obj fs).jget n) := by
            rw [List.mem_flatMap] at hmem ⊢
            obtain ⟨n, hn, hmem'⟩ := hmem
            refine ⟨n, hn, ?_⟩
            have hdecl := tuplesOk_exchange n ((JVal.obj fs).jget n) (ex, q, rk) hmem'
            rw [exOpsOk_eq_declared, hdecl]
            simp
          obtain ⟨kE, hkE⟩ := List.mem_iff_getElem?.mp hmem2
          have hklt : kE < (channelNames.flatMap fun n =>
              exOpsOk w ((JVal.obj fs).jget n)).length := by
            by_contra hcon
            push_neg at hcon
            rw [List.getElem?_eq_none hcon] at hkE
            exact Option.noConfusion hkE
          refine ⟨kE + 1, by omega, ?_⟩
          rw [hops, List.cons_append, List.getElem?_cons_succ,
            List.getElem?_append_left hklt]
          exact hkE


theorem plan_ordering_invariant_witness :
    cfgWF (.obj [("vhost", JVal.str "v"),
      ("telemetry", JVal.obj [("exchange", JVal.str "e"), ("queue", JVal.str "q"),
        ("routing_key", JVal.str "r")])]) = true ∧
    lookupField [("vhost", JVal.str "v"),
      ("telemetry", JVal.obj [("exchange", JVal.str "e"), ("queue", JVal.str "q"),
        ("routing_key", JVal.str "r")])] "vhost" = some (JVal.str "v") ∧
    ((mainRun (.obj [("vhost", JVal.str "v"),
      ("telemetry", JVal.obj [("exchange", JVal.str "e"), ("queue", JVal.str "q"),
        ("routing_key", JVal.str "r")])])).1)[0]? = some (Op.ensureVhost (JVal.str "v")) ∧
    ((mainRun (.obj [("vhost", JVal.str "v"),
      ("telemetry", JVal.obj [("exchange", JVal.str "e"), ("queue", JVal.str "q"),
        ("routing_key", JVal.str "r")])])).1).countP Op.isVhostOp = 1 := by
  refine ⟨rfl, rfl, ?_, ?_⟩
  · exact (plan_ordering_invariant [("vhost", JVal.str "v"),
      ("telemetry", JVal.obj [("exchange", JVal.str "e"), ("queue", JVal.str "q"),
        ("routing_key", JVal.str "r")])] (JVal.str "v") rfl rfl).1
  · exact (plan_ordering_invariant [("vhost", JVal.str "v"),
      ("telemetry", JVal.obj [("exchange", JVal.str "e"), ("queue", JVal.str "q"),
        ("routing_key", JVal.str "r")])] (JVal.str "v") rfl rfl).2.1
